import Mathlib

/-!
Verification development for the amazon-listing-ai-assistant repository.

This file gives a shallow embedding of the verification pipeline's core
algorithms, translated from the TypeScript/JavaScript sources:

* `src/pages/AutomatedPropertyVerification.tsx` — `ensureCompressedJson`
  (the Data Repair Engine), `handleDataCleaning` (the cleanup pass over
  stored records) and the skip/enqueue loop of `processProperty`;
* the data-cleaning utility `removeMarketplaceIdRecursively`;
* `src/services/storage.ts` — the keyed result store (`saveResult`,
  `getResult`, `hasResult`, `hasResultBySiteProperty`);
* `src/utils/rateLimiter.ts` — the `RateLimiter` concurrency gate;
* `src/utils/valida.js` — `validateData` over the `required` keyword
  fragment of the schema validator.

JavaScript semantics are embedded as follows.  JSON texts are modelled by
`JsValue`; `jsonParseJS` follows the grammar and error behaviour of
`JSON.parse` in a modern engine (a parse that yields a complete value
followed by non-whitespace input fails with the distinguished
`trailingJunk` error, which is the error whose message contains
"Unexpected non-whitespace character after JSON" — the message text the
repair engine tests with `includes`).  Numbers are carried by their source
lexeme; the engine-specific re-formatting of IEEE doubles is abstracted
(`jsonStringify` prints the stored lexeme).  Lone surrogates from `\u`
escapes are mapped to U+FFFD because Lean characters are Unicode scalar
values; no claim below depends on that corner.  String indices count
characters rather than UTF-16 code units.
-/

set_option maxRecDepth 4096

/-- JavaScript values produced by `JSON.parse`: null, booleans, numbers
(carried by their source lexeme), strings, arrays and objects (ordered
key/value lists; `JSON.parse` keeps the last value for a duplicated key). -/
inductive JsValue where
| null : JsValue
| bool : Bool → JsValue
| num : String → JsValue
| str : String → JsValue
| arr : List JsValue → JsValue
| obj : List (String × JsValue) → JsValue

/-- Parse errors of `JSON.parse`, at the granularity the repair engine
distinguishes: `trailingJunk` is the "Unexpected non-whitespace character
after JSON" error raised when a complete value is followed by further
non-whitespace input; all other failures are bucketed as an unexpected
token or an unexpected end of input. -/
inductive ParseErr where
| trailingJunk : ParseErr
| unexpectedToken : ParseErr
| unexpectedEnd : ParseErr
deriving DecidableEq

/-- The message text of each parse error (engine position suffixes are
abstracted away; the repair engine only tests the message with
`includes('Unexpected non-whitespace character after JSON')`). -/
def parseErrMessage : ParseErr → String
| .trailingJunk => "Unexpected non-whitespace character after JSON"
| .unexpectedToken => "Unexpected token in JSON"
| .unexpectedEnd => "Unexpected end of JSON input"

/-- Whitespace accepted by the JSON grammar (RFC 8259): space, tab,
line feed, carriage return. -/
def jsonWs (c : Char) : Bool :=
  c = ' ' || c = '\t' || c = '\n' || c = '\r'

/-- Drop leading JSON whitespace. -/
def skipWsJ (l : List Char) : List Char := l.dropWhile jsonWs

/-- Value of a hexadecimal digit. -/
def hexVal (c : Char) : Option Nat :=
  if '0' ≤ c ∧ c ≤ '9' then some (c.toNat - 48)
  else if 'a' ≤ c ∧ c ≤ 'f' then some (c.toNat - 87)
  else if 'A' ≤ c ∧ c ≤ 'F' then some (c.toNat - 55)
  else none

/-- Read four hexadecimal digits. -/
def hex4 (l : List Char) : Option (Nat × List Char) :=
  match l with
  | a :: b :: c :: d :: rest =>
    match hexVal a, hexVal b, hexVal c, hexVal d with
    | some x, some y, some z, some w => some ((((x * 16 + y) * 16 + z) * 16 + w), rest)
    | _, _, _, _ => none
  | _ => none

/-- Combine a surrogate pair from two `\u` escapes into one scalar value. -/
def surrogatePair (hi lo : Nat) : Char :=
  Char.ofNat (0x10000 + (hi - 0xD800) * 0x400 + (lo - 0xDC00))

/-- Body of a JSON string literal after the opening quote: handles the
escapes `\" \\ \/ \b \f \n \r \t \uXXXX`, rejects raw control characters,
and pairs surrogates (lone surrogates become U+FFFD, see the header). -/
def parseStrBody (fuel : Nat) (acc : List Char) (l : List Char) :
    Except ParseErr (String × List Char) :=
  match fuel with
  | 0 => .error .unexpectedEnd
  | Nat.succ fuel =>
    match l with
    | [] => .error .unexpectedEnd
    | c :: rest =>
      if c = '"' then .ok (String.mk acc.reverse, rest)
      else if c = '\\' then
        match rest with
        | [] => .error .unexpectedEnd
        | e :: rest2 =>
          if e = '"' then parseStrBody fuel ('"' :: acc) rest2
          else if e = '\\' then parseStrBody fuel ('\\' :: acc) rest2
          else if e = '/' then parseStrBody fuel ('/' :: acc) rest2
          else if e = 'b' then parseStrBody fuel ('\x08' :: acc) rest2
          else if e = 'f' then parseStrBody fuel ('\x0C' :: acc) rest2
          else if e = 'n' then parseStrBody fuel ('\n' :: acc) rest2
          else if e = 'r' then parseStrBody fuel ('\r' :: acc) rest2
          else if e = 't' then parseStrBody fuel ('\t' :: acc) rest2
          else if e = 'u' then
            match hex4 rest2 with
            | none => .error .unexpectedToken
            | some (n, rest3) =>
              if 0xD800 ≤ n ∧ n ≤ 0xDBFF then
                match rest3 with
                | '\\' :: 'u' :: rest4 =>
                  match hex4 rest4 with
                  | some (m, rest5) =>
                    if 0xDC00 ≤ m ∧ m ≤ 0xDFFF then
                      parseStrBody fuel (surrogatePair n m :: acc) rest5
                    else parseStrBody fuel ('�' :: acc) ('\\' :: 'u' :: rest4)
                  | none => parseStrBody fuel ('�' :: acc) ('\\' :: 'u' :: rest4)
                | _ => parseStrBody fuel ('�' :: acc) rest3
              else if 0xDC00 ≤ n ∧ n ≤ 0xDFFF then
                parseStrBody fuel ('�' :: acc) rest3
              else parseStrBody fuel (Char.ofNat n :: acc) rest3
          else .error .unexpectedToken
      else if c.toNat < 0x20 then .error .unexpectedToken
      else parseStrBody fuel (c :: acc) rest

/-- Longest digit run at the front. -/
def splitDigits (l : List Char) : List Char × List Char :=
  (l.takeWhile Char.isDigit, l.dropWhile Char.isDigit)

/-- Integer part of a JSON number: `0` or a nonzero digit followed by digits. -/
def parseIntPart : List Char → Option (List Char × List Char)
| [] => none
| c :: r =>
  if c = '0' then some ([c], r)
  else if c.isDigit then
    let p := splitDigits r
    some (c :: p.1, p.2)
  else none

/-- Optional fractional part `.digits`. -/
def parseFracPart (l : List Char) : Option (List Char × List Char) :=
  match l with
  | '.' :: r =>
    let p := splitDigits r
    if p.1.isEmpty then none else some ('.' :: p.1, p.2)
  | _ => some ([], l)

/-- Optional exponent part `e|E [+|-] digits`. -/
def parseExpPart (l : List Char) : Option (List Char × List Char) :=
  match l with
  | c :: r =>
    if c = 'e' ∨ c = 'E' then
      let sr : List Char × List Char :=
        match r with
        | s :: r2 => if s = '+' ∨ s = '-' then ([s], r2) else ([], r)
        | [] => ([], r)
      let p := splitDigits sr.2
      if p.1.isEmpty then none else some (c :: (sr.1 ++ p.1), p.2)
    else some ([], l)
  | [] => some ([], l)

/-- Lexeme of a JSON number per the RFC 8259 grammar. -/
def parseNumLex (l : List Char) : Option (List Char × List Char) :=
  let sl : List Char × List Char :=
    match l with
    | '-' :: r => (['-'], r)
    | _ => ([], l)
  match parseIntPart sl.2 with
  | none => none
  | some (ip, l2) =>
    match parseFracPart l2 with
    | none => none
    | some (fp, l3) =>
      match parseExpPart l3 with
      | none => none
      | some (ep, l4) => some (sl.1 ++ ip ++ fp ++ ep, l4)

/-- Replace the value of an existing key in place, else append — the
key-collision behaviour of JavaScript object literals built by
`JSON.parse` (first occurrence keeps its position, last value wins). -/
def objInsert (kvs : List (String × JsValue)) (k : String) (v : JsValue) :
    List (String × JsValue) :=
  if kvs.any (fun kv => kv.1 = k) then
    kvs.map (fun kv => if kv.1 = k then (k, v) else kv)
  else kvs ++ [(k, v)]

mutual

/-- Recursive-descent JSON value parser (fuel-indexed; the fuel passed at
top level is large enough for every input). -/
def parseValueF : Nat → List Char → Except ParseErr (JsValue × List Char)
| 0, _ => .error .unexpectedEnd
| Nat.succ fuel, l0 =>
  match skipWsJ l0 with
  | [] => .error .unexpectedEnd
  | c :: rest =>
    if c = '[' then parseArrayF fuel rest []
    else if c = Char.ofNat 123 then parseObjF fuel rest []
    else if c = '"' then
      match parseStrBody (rest.length + 1) [] rest with
      | .ok (s, r) => .ok (JsValue.str s, r)
      | .error e => .error e
    else if c = 't' then
      match rest with
      | 'r' :: 'u' :: 'e' :: r => .ok (JsValue.bool true, r)
      | _ => .error .unexpectedToken
    else if c = 'f' then
      match rest with
      | 'a' :: 'l' :: 's' :: 'e' :: r => .ok (JsValue.bool false, r)
      | _ => .error .unexpectedToken
    else if c = 'n' then
      match rest with
      | 'u' :: 'l' :: 'l' :: r => .ok (JsValue.null, r)
      | _ => .error .unexpectedToken
    else if c = '-' ∨ c.isDigit then
      match parseNumLex (c :: rest) with
      | some (lex, r) => .ok (JsValue.num (String.mk lex), r)
      | none => .error .unexpectedToken
    else .error .unexpectedToken

/-- Elements of a JSON array after the opening bracket. -/
def parseArrayF : Nat → List Char → List JsValue →
    Except ParseErr (JsValue × List Char)
| 0, _, _ => .error .unexpectedEnd
| Nat.succ fuel, l, acc =>
  match skipWsJ l with
  | [] => .error .unexpectedEnd
  | c :: rest =>
    if c = ']' ∧ acc.isEmpty then .ok (JsValue.arr [], rest)
    else
      match parseValueF fuel (c :: rest) with
      | .error e => .error e
      | .ok (v, r1) =>
        match skipWsJ r1 with
        | [] => .error .unexpectedEnd
        | d :: r2 =>
          if d = ',' then parseArrayF fuel r2 (acc ++ [v])
          else if d = ']' then .ok (JsValue.arr (acc ++ [v]), r2)
          else .error .unexpectedToken

/-- Members of a JSON object after the opening brace. -/
def parseObjF : Nat → List Char → List (String × JsValue) →
    Except ParseErr (JsValue × List Char)
| 0, _, _ => .error .unexpectedEnd
| Nat.succ fuel, l, acc =>
  match skipWsJ l with
  | [] => .error .unexpectedEnd
  | c :: rest =>
    if c = Char.ofNat 125 ∧ acc.isEmpty then .ok (JsValue.obj [], rest)
    else if c = '"' then
      match parseStrBody (rest.length + 1) [] rest with
      | .error e => .error e
      | .ok (k, r1) =>
        match skipWsJ r1 with
        | ':' :: r2 =>
          match parseValueF fuel r2 with
          | .error e => .error e
          | .ok (v, r3) =>
            match skipWsJ r3 with
            | [] => .error .unexpectedEnd
            | d :: r4 =>
              if d = ',' then parseObjF fuel r4 (objInsert acc k v)
              else if d = Char.ofNat 125 then .ok (JsValue.obj (objInsert acc k v), r4)
              else .error .unexpectedToken
        | _ => .error .unexpectedToken
    else .error .unexpectedToken

end

/-- The embedding of `JSON.parse`: parse one value and require only
whitespace after it; a complete value followed by anything else raises
the `trailingJunk` error (the "after JSON" message the engine tests). -/
def jsonParseJS (s : String) : Except ParseErr JsValue :=
  match parseValueF (2 * s.length + 8) s.data with
  | .error e => .error e
  | .ok (v, rest) =>
    if (skipWsJ rest).isEmpty then .ok v else .error .trailingJunk

/-- Lowercase hexadecimal digit, as printed by `JSON.stringify` in
`\u00XX` escapes. -/
def hexDigit (n : Nat) : Char :=
  if n < 10 then Char.ofNat (48 + n) else Char.ofNat (87 + n)

/-- Escaping of one character inside a `JSON.stringify` string literal. -/
def escStrChar (c : Char) : List Char :=
  if c = '"' then ['\\', '"']
  else if c = '\\' then ['\\', '\\']
  else if c = '\x08' then ['\\', 'b']
  else if c = '\t' then ['\\', 't']
  else if c = '\n' then ['\\', 'n']
  else if c = '\x0C' then ['\\', 'f']
  else if c = '\r' then ['\\', 'r']
  else if c.toNat < 0x20 then
    ['\\', 'u', '0', '0', hexDigit (c.toNat / 16), hexDigit (c.toNat % 16)]
  else [c]

/-- A quoted, escaped string literal. -/
def quoteStr (s : String) : List Char :=
  '"' :: (s.data.map escStrChar).flatten ++ ['"']

/-- Comma-join pre-rendered parts. -/
def joinComma : List (List Char) → List Char
| [] => []
| [x] => x
| x :: y :: r => x ++ ',' :: joinComma (y :: r)

mutual

/-- Rendering of `JSON.stringify(v)` (no indentation argument, hence the
compact form with no inserted whitespace); numbers print their stored
lexeme (see the header note on the double-formatting abstraction). -/
def jsonStringifyV : JsValue → List Char
| .null => "null".data
| .bool true => "true".data
| .bool false => "false".data
| .num lex => lex.data
| .str s => quoteStr s
| .arr l => '[' :: joinComma (jsonStringifyL l) ++ [']']
| .obj kvs => Char.ofNat 123 :: joinComma (jsonStringifyO kvs) ++ [Char.ofNat 125]

/-- Rendered elements of an array. -/
def jsonStringifyL : List JsValue → List (List Char)
| [] => []
| v :: r => jsonStringifyV v :: jsonStringifyL r

/-- Rendered members of an object. -/
def jsonStringifyO : List (String × JsValue) → List (List Char)
| [] => []
| (k, v) :: r => (quoteStr k ++ ':' :: jsonStringifyV v) :: jsonStringifyO r

end

/-- Rendering of `JSON.stringify` as a string. -/
def jsonStringify (v : JsValue) : String := String.mk (jsonStringifyV v)

/-- The JavaScript `typeof` of a parsed JSON value (`null`, arrays and
objects all report `object`). -/
def jsTypeof : JsValue → String
| .str _ => "string"
| .num _ => "number"
| .bool _ => "boolean"
| _ => "object"

/-- Code points matched by the JavaScript regular-expression class `\s`
(also the set removed by `String.prototype.trim`). -/
def jsWsCodes : List Nat :=
  [0x09, 0x0A, 0x0B, 0x0C, 0x0D, 0x20, 0xA0, 0x1680,
   0x2000, 0x2001, 0x2002, 0x2003, 0x2004, 0x2005, 0x2006, 0x2007,
   0x2008, 0x2009, 0x200A, 0x2028, 0x2029, 0x202F, 0x205F, 0x3000, 0xFEFF]

/-- Whether a character is JavaScript whitespace (`\s`). -/
def isJsWs (c : Char) : Bool := jsWsCodes.contains c.toNat

/-- Embedding of `String.prototype.trim` on a character list. -/
def jsTrimChars (l : List Char) : List Char :=
  ((l.dropWhile isJsWs).reverse.dropWhile isJsWs).reverse

/-- Embedding of `String.prototype.trim`. -/
def jsTrimStr (s : String) : String := String.mk (jsTrimChars s.data)

/-- One pass of `replace(/\s+/g, ' ')`: each maximal whitespace run becomes
one space.  The flag records whether the previous character was whitespace. -/
def collapseWsAux : Bool → List Char → List Char
| _, [] => []
| prevWs, c :: rest =>
  if isJsWs c then
    if prevWs then collapseWsAux true rest
    else ' ' :: collapseWsAux true rest
  else c :: collapseWsAux false rest

/-- Embedding of the replacement of whitespace runs by single spaces. -/
def collapseWs (l : List Char) : List Char := collapseWsAux false l

/-- Delete every whitespace run immediately following an occurrence of `t`
(the `t\s*` half of `replace(/\s*t\s*/g, 't')`).  The flag is true while
whitespace after a `t` is being skipped. -/
def delWsAfterAux (t : Char) : Bool → List Char → List Char
| _, [] => []
| skipWs, c :: rest =>
  if skipWs && isJsWs c then delWsAfterAux t true rest
  else if c = t then c :: delWsAfterAux t true rest
  else c :: delWsAfterAux t false rest

/-- Delete whitespace runs directly after each `t`. -/
def delWsAfter (t : Char) (l : List Char) : List Char := delWsAfterAux t false l

/-- Delete whitespace runs directly before each `t`. -/
def delWsBefore (t : Char) (l : List Char) : List Char :=
  (delWsAfter t l.reverse).reverse

/-- Embedding of the replacement that drops the whitespace adjacent to every
occurrence of `t` (a run between two `t`s is dropped once, as in the
single left-to-right regex pass). -/
def stripAroundChar (t : Char) (l : List Char) : List Char :=
  delWsBefore t (delWsAfter t l)

/-- Step 2 of the repair engine (lines 654–662): collapse whitespace runs,
strip whitespace around `:`, `,`, `[`, `]`, `{`, `}` in that order, then
trim — applied to the whole text, string literals included. -/
def wsNormChars (l : List Char) : List Char :=
  jsTrimChars
    (stripAroundChar (Char.ofNat 125)
      (stripAroundChar (Char.ofNat 123)
        (stripAroundChar ']'
          (stripAroundChar '['
            (stripAroundChar ','
              (stripAroundChar ':' (collapseWs l)))))))

/-- Whitespace normalization on strings. -/
def wsNormStr (s : String) : String := String.mk (wsNormChars s.data)

/-- Embedding of the global unescape of every backslash-quote pair, left to right. -/
def unescQuotes : List Char → List Char
| '\\' :: '"' :: r => '"' :: unescQuotes r
| c :: r => c :: unescQuotes r
| [] => []

/-- Number of non-overlapping `\"` occurrences (`match(/\\"/g).length`). -/
def countEscQuotes : List Char → Nat
| '\\' :: '"' :: r => countEscQuotes r + 1
| _ :: r => countEscQuotes r
| [] => 0

/-- Embedding of the global removal of every backslash-quote pair. -/
def dropEscQuotes : List Char → List Char
| '\\' :: '"' :: r => dropEscQuotes r
| c :: r => c :: dropEscQuotes r
| [] => []

/-- Number of `"` characters (`match(/"/g).length`). -/
def countQuoteChars (l : List Char) : Nat :=
  (l.filter (fun c => c = '"')).length

/-- Whether the text contains the two-character sequence `\"`
(`includes('\\"')`). -/
def hasEscQuote : List Char → Bool
| '\\' :: '"' :: _ => true
| _ :: r => hasEscQuote r
| [] => false

/-- Embedding of the check that the text starts with a backslash-quote pair. -/
def startsWithEscQ (l : List Char) : Bool :=
  match l with
  | '\\' :: '"' :: _ => true
  | _ => false

/-- Embedding of the check that the text ends with a backslash-quote pair. -/
def endsWithEscQ (l : List Char) : Bool :=
  match l.reverse with
  | '"' :: '\\' :: _ => true
  | _ => false

/-- Embedding of `slice(2, -2)` (empty when the string has at most four characters). -/
def jsSliceTwoTwo (l : List Char) : List Char :=
  (l.drop 2).take (l.length - 4)

/-- Step 1 of the repair engine (lines 626–650): undo escaped quoting.
If the text starts and ends with `\"`, strip those and unescape the rest;
otherwise, if it contains `\"` and the escaped-quote count is at least the
remaining plain-quote count, unescape every `\"`.  Returns the new text and
whether `wasModified` was set. -/
def unescapeStage (l : List Char) : List Char × Bool :=
  if startsWithEscQ l ∧ endsWithEscQ l then
    (unescQuotes (jsSliceTwoTwo l), true)
  else if hasEscQuote l then
    if countQuoteChars (dropEscQuotes l) ≤ countEscQuotes l then
      (unescQuotes l, true)
    else (l, false)
  else (l, false)

/-- Steps 1–2 combined: trim, unescape, normalize whitespace — the
`processedString` handed to `JSON.parse` in step 3 (line 674). -/
def preprocChars (s : String) : List Char :=
  wsNormChars (unescapeStage (jsTrimChars s.data)).1

/-- The preprocessed text as a string. -/
def preprocStr (s : String) : String := String.mk (preprocChars s)

/-- Index of the first `[` or `{` (lines 689–697). -/
def findStartIdx : List Char → Option Nat
| [] => none
| c :: r =>
  if c = '[' ∨ c = Char.ofNat 123 then some 0
  else (findStartIdx r).map (· + 1)

/-- The balanced-bracket scan of lines 704–733, started on the suffix that
begins at the first `[`/`{`: tracks string and escape state, counts `[`/`{`
against `]`/`}` interchangeably (as the source does), and returns the index
of the character where the count returns to zero. -/
def scanBalancedAux : List Char → Nat → Bool → Bool → Nat → Option Nat
| [], _, _, _, _ => none
| c :: r, bc, inStr, esc, i =>
  if esc then scanBalancedAux r bc inStr false (i + 1)
  else if c = '\\' then scanBalancedAux r bc inStr true (i + 1)
  else if c = '"' then scanBalancedAux r bc (!inStr) false (i + 1)
  else if inStr then scanBalancedAux r bc inStr false (i + 1)
  else if c = '[' ∨ c = Char.ofNat 123 then scanBalancedAux r (bc + 1) inStr false (i + 1)
  else if c = ']' ∨ c = Char.ofNat 125 then
    if bc = 1 then some i else scanBalancedAux r (bc - 1) inStr false (i + 1)
  else scanBalancedAux r bc inStr false (i + 1)

/-- Relative index of the character closing the first bracketed structure. -/
def scanBalanced (l : List Char) : Option Nat :=
  scanBalancedAux l 0 false false 0

/-- Index of the first occurrence of a character. -/
def idxOfChar (t : Char) : List Char → Option Nat
| [] => none
| c :: r => if c = t then some 0 else (idxOfChar t r).map (· + 1)

/-- Embedding of the non-greedy bracket-span match of line 747: the span from the first `[` to the first `]`
after it, if both exist. -/
def firstArraySpan (l : List Char) : Option (List Char) :=
  match idxOfChar '[' l with
  | none => none
  | some i =>
    let suff := l.drop i
    match idxOfChar ']' (suff.drop 1) with
    | none => none
    | some j => some (suff.take (j + 2))

/-- Whether `pat` is a leading sequence of `l`. -/
def matchesAt : List Char → List Char → Bool
| [], _ => true
| _ :: _, [] => false
| p :: ps, c :: cs => p = c && matchesAt ps cs

/-- Whether `pat` occurs as a contiguous subsequence (`includes`). -/
def hasSeq (pat : List Char) : List Char → Bool
| [] => pat.isEmpty
| c :: r => matchesAt pat (c :: r) || hasSeq pat r

/-- The fourteen-character key in quotes: `"marketplace_id"`. -/
def midKeyChars : List Char := '"' :: "marketplace_id".data ++ ['"']

/-- After the literal `"marketplace_id"`, the tail of the regex
`"marketplace_id"\s*:\s*"[^"]*"\s*,?\s*`: whitespace, colon, whitespace,
a quoted value, whitespace, an optional comma, whitespace.  Returns the
remainder after the whole match. -/
def midMatchTail (l : List Char) : Option (List Char) :=
  match l.dropWhile isJsWs with
  | ':' :: l2 =>
    match l2.dropWhile isJsWs with
    | '"' :: l4 =>
      match l4.dropWhile (fun c => !(c = '"')) with
      | '"' :: l6 =>
        let l7 := l6.dropWhile isJsWs
        match l7 with
        | ',' :: l8 => some (l8.dropWhile isJsWs)
        | _ => some l7
      | _ => none
    | _ => none
  | _ => none

/-- Embedding of the marketplace-field removal replacement of line 838. -/
def midReplaceAux : Nat → List Char → List Char
| 0, l => l
| Nat.succ fuel, l =>
  match l with
  | [] => []
  | c :: r =>
    if matchesAt midKeyChars (c :: r) then
      match midMatchTail ((c :: r).drop midKeyChars.length) with
      | some rest => midReplaceAux fuel rest
      | none => c :: midReplaceAux fuel r
    else c :: midReplaceAux fuel r

/-- The marketplace-key removal pass. -/
def midReplace (l : List Char) : List Char := midReplaceAux (l.length + 1) l

/-- Embedding of the comma cleanup before a closing bracket `x` (lines 839 and 841):
a comma and the whitespace before `x` are dropped. -/
def fixCommaClose (close : Char) : Nat → List Char → List Char
| 0, l => l
| Nat.succ fuel, l =>
  match l with
  | [] => []
  | c :: r =>
    if c = ',' then
      match r.dropWhile isJsWs with
      | d :: r3 =>
        if d = close then close :: fixCommaClose close fuel r3
        else ',' :: fixCommaClose close fuel r
      | [] => ',' :: fixCommaClose close fuel r
    else c :: fixCommaClose close fuel r

/-- Embedding of the comma cleanup after an opening bracket `x` (lines 840 and 842):
the whitespace and comma after `x` are dropped. -/
def fixOpenComma (openc : Char) : Nat → List Char → List Char
| 0, l => l
| Nat.succ fuel, l =>
  match l with
  | [] => []
  | c :: r =>
    if c = openc then
      match r.dropWhile isJsWs with
      | ',' :: r3 => openc :: fixOpenComma openc fuel r3
      | _ => openc :: fixOpenComma openc fuel r
    else c :: fixOpenComma openc fuel r

/-- Lines 835–848: when the text contains `"marketplace_id"`, remove the
field by pattern and clean up stray commas next to brackets. -/
def midRegexPipeline (l : List Char) : List Char :=
  let f1 := midReplace l
  let f2 := fixCommaClose (Char.ofNat 125) (f1.length + 1) f1
  let f3 := fixOpenComma (Char.ofNat 123) (f2.length + 1) f2
  let f4 := fixCommaClose ']' (f3.length + 1) f3
  fixOpenComma '[' (f4.length + 1) f4

/-- The string-level marketplace fix is applied only when the key text is
present (line 835). -/
def marketplaceStringFix (l : List Char) : List Char :=
  if hasSeq midKeyChars l then midRegexPipeline l else l

/-- Embedding of the anchored replacement that drops one leading byte-order mark (line 853). -/
def stripBOM : List Char → List Char
| '﻿' :: r => r
| l => l

/-- Embedding of the global removal of control characters (line 856). -/
def stripCtlChars (l : List Char) : List Char :=
  l.filter (fun c => !(c.toNat < 0x20 || c.toNat = 0x7F))

/-- Embedding of the trailing-comma fix of line 859: a comma directly before
(optional whitespace and) a closing bracket is dropped; the captured
whitespace and bracket are kept. -/
def fixTrailComma : Nat → List Char → List Char
| 0, l => l
| Nat.succ fuel, l =>
  match l with
  | [] => []
  | c :: r =>
    if c = ',' then
      let ws := r.takeWhile isJsWs
      match r.dropWhile isJsWs with
      | d :: r3 =>
        if d = ']' ∨ d = Char.ofNat 125 then ws ++ d :: fixTrailComma fuel r3
        else ',' :: fixTrailComma fuel r
      | [] => ',' :: fixTrailComma fuel r
    else c :: fixTrailComma fuel r

/-- The full catch-branch fixup of lines 832–859: marketplace removal when
present, then BOM, control characters and trailing commas. -/
def catchFixup (l : List Char) : List Char :=
  let f3 := stripCtlChars (stripBOM (marketplaceStringFix l))
  fixTrailComma (f3.length + 1) f3

mutual

/-- The deep clean of `removeMarketplaceIdRecursively` on one value:
arrays map over their items; objects drop every `marketplace_id` member
(setting the flag) and recurse into the remaining values; primitives are
returned unchanged.  Returns the cleaned value and the `wasModified` flag. -/
def deepCleanV : JsValue → JsValue × Bool
| .null => (.null, false)
| .bool b => (.bool b, false)
| .num n => (.num n, false)
| .str s => (.str s, false)
| .arr l =>
  let p := deepCleanL l
  (.arr p.1, p.2)
| .obj kvs =>
  let p := deepCleanO kvs
  (.obj p.1, p.2)

/-- Deep clean of a list of array items. -/
def deepCleanL : List JsValue → List JsValue × Bool
| [] => ([], false)
| v :: r =>
  let p := deepCleanV v
  let q := deepCleanL r
  (p.1 :: q.1, p.2 || q.2)

/-- Deep clean of the members of one object. -/
def deepCleanO : List (String × JsValue) → List (String × JsValue) × Bool
| [] => ([], false)
| (k, v) :: r =>
  if k = "marketplace_id" then
    let q := deepCleanO r
    (q.1, true)
  else
    let p := deepCleanV v
    let q := deepCleanO r
    ((k, p.1) :: q.1, p.2 || q.2)

end

/-- The utility `removeMarketplaceIdRecursively(data)`: the cleaned structure together
with the flag telling whether any `marketplace_id` member was removed. -/
def removeMarketplaceIdRecursively (data : JsValue) : JsValue × Bool :=
  deepCleanV data

mutual

/-- Whether some object at any depth has a `marketplace_id` member. -/
def hasMidV : JsValue → Bool
| .arr l => hasMidL l
| .obj kvs => hasMidO kvs
| _ => false

/-- Check `hasMidV` over array items. -/
def hasMidL : List JsValue → Bool
| [] => false
| v :: r => hasMidV v || hasMidL r

/-- Check `hasMidV` over object members. -/
def hasMidO : List (String × JsValue) → Bool
| [] => false
| (k, v) :: r =>
  if k = "marketplace_id" then true else hasMidV v || hasMidO r

end

/-- Processing method reported by the repair engine. -/
inductive PMethod where
| json_parsed : PMethod
| string_processed : PMethod
| already_compressed : PMethod
deriving DecidableEq

/-- The result record of `ensureCompressedJson` (lines 596–603). -/
structure RepairResult where
  compressed : String
  wasModified : Bool
  hadMarketplaceId : Bool
  processingMethod : PMethod
  isValidArray : Bool
  validationError : Option String
deriving DecidableEq

/-- Step 6 and the final check (lines 895–911): a string result is used
verbatim as `compressed`; any non-string result is serialized compactly and
unconditionally sets `wasModified`; finally `wasModified` is also set
whenever `compressed` differs from the original input. -/
def finishStage (jsonString : String) (finalData : JsValue) (hadMid wm isValid : Bool)
    (verr : Option String) (m : PMethod) : RepairResult :=
  match finalData with
  | .str s =>
    { compressed := s
      wasModified := wm || decide (¬ s = jsonString)
      hadMarketplaceId := hadMid
      processingMethod := m
      isValidArray := isValid
      validationError := verr }
  | v =>
    { compressed := jsonStringify v
      wasModified := true
      hadMarketplaceId := hadMid
      processingMethod := m
      isValidArray := isValid
      validationError := verr }

/-- Lines 783–792: if the parsed value is itself a string, parse once more
(double JSON encoding); a successful re-parse sets `wasModified`, a failed
one keeps the string. -/
def secondParse (v0 : JsValue) (wm0 : Bool) : JsValue × Bool :=
  match v0 with
  | .str s =>
    match jsonParseJS s with
    | .ok u => (u, true)
    | .error _ => (.str s, wm0)
  | u => (u, wm0)

/-- Lines 794–817: classify the (re-)parsed value — an array is cleaned of
`marketplace_id` and reported valid; anything else is still cleaned but
reported invalid with a descriptive message. -/
def afterParseCore (jsonString : String) (v : JsValue) (wm : Bool) : RepairResult :=
  match v with
  | .arr l =>
    finishStage jsonString (deepCleanV (.arr l)).1 (deepCleanV (.arr l)).2
      (wm || (deepCleanV (.arr l)).2) true none .json_parsed
  | u =>
    finishStage jsonString (deepCleanV u).1 (deepCleanV u).2
      (wm || (deepCleanV u).2) false
      (some ("Expected array but got " ++ jsTypeof u ++ ": " ++ jsTypeof u)) .json_parsed

/-- Lines 783–817: the continuation after a successful parse. -/
def afterParseStage (jsonString : String) (v0 : JsValue) (wm0 : Bool) : RepairResult :=
  afterParseCore jsonString (secondParse v0 wm0).1 (secondParse v0 wm0).2

/-- Whether the string-level marketplace fix changed the text — the
`hadMarketplaceId` flag of the catch branch (line 844). -/
def midFixChanged (s2 : String) : Bool :=
  decide (¬ marketplaceStringFix s2.data = s2.data)

/-- Lines 819–893, the catch branch: record the parse failure, apply the
string-level fixups, and if they changed the text try one more parse — an
array result flips the outcome to valid, any other parse keeps the failure. -/
def catchStage (jsonString : String) (s2 : String) (wm0 : Bool) (e : ParseErr) : RepairResult :=
  if catchFixup s2.data = s2.data then
    finishStage jsonString (.str s2) (midFixChanged s2) (wm0 || midFixChanged s2) false
      (some ("JSON parse failed: " ++ parseErrMessage e)) .string_processed
  else
    match jsonParseJS (String.mk (catchFixup s2.data)) with
    | .ok (.arr l) =>
      finishStage jsonString (deepCleanV (.arr l)).1
        (midFixChanged s2 || (deepCleanV (.arr l)).2)
        (true || (deepCleanV (.arr l)).2) true none .string_processed
    | .ok u =>
      finishStage jsonString u (midFixChanged s2) true false
        (some ("Repaired JSON is not an array: " ++ jsTypeof u)) .string_processed
    | .error _ =>
      finishStage jsonString (.str (String.mk (catchFixup s2.data))) (midFixChanged s2) true false
        (some ("JSON parse failed: " ++ parseErrMessage e)) .string_processed

/-- The empty-input result (lines 604–613). -/
def emptyRepairResult : RepairResult :=
  { compressed := ""
    wasModified := false
    hadMarketplaceId := false
    processingMethod := .already_compressed
    isValidArray := false
    validationError := some "Empty data" }

/-- Step 3's dispatch (lines 668–781) on the preprocessed text: a direct
parse continues normally; on the trailing-content error — and only on it —
the first balanced bracketed structure and then the `/\[.*?\]/s` span are
tried (each success marking the text modified); every other failure, and
exhaustion of the fallbacks, lands in the catch branch with the original
error. -/
def repairDispatch (jsonString s2 : String) (wm2 : Bool) : RepairResult :=
  match jsonParseJS s2 with
  | .ok v => afterParseStage jsonString v wm2
  | .error e =>
    if e = .trailingJunk then
      match findStartIdx s2.data with
      | none => catchStage jsonString s2 wm2 e
      | some start =>
        match scanBalanced (s2.data.drop start) with
        | some endRel =>
          match jsonParseJS (String.mk ((s2.data.drop start).take (endRel + 1))) with
          | .ok v => afterParseStage jsonString v true
          | .error _ =>
            match firstArraySpan s2.data with
            | some span =>
              match jsonParseJS (String.mk span) with
              | .ok v => afterParseStage jsonString v true
              | .error _ => catchStage jsonString s2 wm2 e
            | none => catchStage jsonString s2 wm2 e
        | none =>
          match firstArraySpan s2.data with
          | some span =>
            match jsonParseJS (String.mk span) with
            | .ok v => afterParseStage jsonString v true
            | .error _ => catchStage jsonString s2 wm2 e
          | none => catchStage jsonString s2 wm2 e
    else catchStage jsonString s2 wm2 e

/-- The Data Repair Engine `ensureCompressedJson` (lines 596–921): empty
input short-circuits; otherwise the text is trimmed and unescaped (step 1),
whitespace-normalized (step 2) — `wasModified` records an unescape or a
length change — and dispatched to parsing (steps 3–6). -/
def ensureCompressedJson (jsonString : String) : RepairResult :=
  if jsTrimStr jsonString = "" then emptyRepairResult
  else
    repairDispatch jsonString (preprocStr jsonString)
      ((unescapeStage (jsTrimChars jsonString.data)).2 ||
        decide (¬ (preprocChars jsonString).length =
          (unescapeStage (jsTrimChars jsonString.data)).1.length))

/-- Status of a stored verification result. -/
inductive VStatus where
| completed : VStatus
| failed : VStatus
deriving DecidableEq

/-- Sync status of a stored verification result. -/
inductive SyncStatus where
| pending : SyncStatus
| syncing : SyncStatus
| synced : SyncStatus
| sync_failed : SyncStatus
deriving DecidableEq

/-- Record type `StoredVerificationResult` of `storage.ts` (lines 2–17).  Timestamps
are abstract `Nat`s supplied by the caller in place of `Date.now()`. -/
structure StoredRecord where
  id : String
  property : String
  site : String
  productType : String
  aiGeneratedData : String
  status : VStatus
  error : Option String
  timestamp : Nat
  language_tag : Option String
  marketplace_id : Option String
  syncStatus : Option SyncStatus
  syncTimestamp : Option Nat
  syncError : Option String
deriving DecidableEq

/-- Function `generateId` (line 67): the dash-joined composite key. -/
def generateId (site productType property : String) : String :=
  site ++ "-" ++ productType ++ "-" ++ property

/-- Arguments of `saveResult` (the record minus `id` and `timestamp`,
which `saveResult` fills in itself). -/
structure SaveArgs where
  property : String
  site : String
  productType : String
  aiGeneratedData : String
  status : VStatus
  error : Option String
  language_tag : Option String
  marketplace_id : Option String
deriving DecidableEq

/-- The stored record built by `saveResult` (lines 90–94). -/
def mkStored (a : SaveArgs) (now : Nat) : StoredRecord :=
  { id := generateId a.site a.productType a.property
    property := a.property
    site := a.site
    productType := a.productType
    aiGeneratedData := a.aiGeneratedData
    status := a.status
    error := a.error
    timestamp := now
    language_tag := a.language_tag
    marketplace_id := a.marketplace_id
    syncStatus := none
    syncTimestamp := none
    syncError := none }

/-- The object store, modelled as the list of its records.  IndexedDB keys
the store by `id` (`keyPath: 'id'`); iteration order is abstracted. -/
abbrev IdbStore := List StoredRecord

/-- Operation `store.put`: replace the record with the same `id` in place, else
append — the IndexedDB upsert used by `saveResult` (line 96). -/
def idbPut (st : IdbStore) (r : StoredRecord) : IdbStore :=
  if (List.any st fun x => x.id = r.id) then
    List.map (fun x => if x.id = r.id then r else x) st
  else st ++ [r]

/-- Operation `saveResult` (lines 78–101). -/
def saveResultM (st : IdbStore) (a : SaveArgs) (now : Nat) : IdbStore :=
  idbPut st (mkStored a now)

/-- Operation `getResult` (lines 238–259): point lookup by the generated id. -/
def getResultM (st : IdbStore) (site productType property : String) :
    Option StoredRecord :=
  List.find? (fun r => r.id = generateId site productType property) st

/-- Operation `hasResult` (lines 188–211): a record exists under the composite id
and its status is `completed`. -/
def hasResultM (st : IdbStore) (site productType property : String) : Bool :=
  match getResultM st site productType property with
  | some r => r.status = VStatus.completed
  | none => false

/-- Operation `hasResultBySiteProperty` (lines 472–496): some record with the given
site and property — the `productType` is not consulted — has status
`completed` (the `siteProperty` index followed by `some`). -/
def hasResultBySitePropertyM (st : IdbStore) (site property : String) : Bool :=
  List.any st fun r =>
    r.site = site ∧ r.property = property ∧ r.status = VStatus.completed

/-- The skip/enqueue decision loop of `processProperty` (lines 266–315):
for each discovered `(site, productType)` pair, the subtask is skipped —
and the skip counter bumped — exactly when `hasResultBySiteProperty`
holds for `(site, property)`; otherwise the pair is enqueued.  Returns the
enqueued pairs in order and the skip count. -/
def processPropertyPlan (st : IdbStore) (property : String) :
    List (String × String) → List (String × String) × Nat
| [] => ([], 0)
| (site, productType) :: rest =>
  let p := processPropertyPlan st property rest
  if hasResultBySitePropertyM st site property then (p.1, p.2 + 1)
  else ((site, productType) :: p.1, p.2)

/-- One record's pass of the cleanup operation `handleDataCleaning`
(lines 982–1068): empty payloads are skipped; otherwise the payload goes
through the repair engine — an invalid result marks the record `failed`
with the engine's message and stores the best-effort payload, while a valid
array stores the cleaned payload (when modified) and promotes any
non-`completed` record to `completed`, clearing its error.  The failure
reason recorded on the record is never consulted.  (The `updateResult`
timestamp bump is irrelevant to the claims and elided.) -/
def cleanRecordStep (r : StoredRecord) : StoredRecord :=
  if r.aiGeneratedData = "" then r
  else
    let c := ensureCompressedJson r.aiGeneratedData
    if c.isValidArray = false then
      { r with
        status := VStatus.failed
        error := some ("Array validation failed: " ++
          (match c.validationError with
           | some m => m
           | none => "undefined"))
        aiGeneratedData := c.compressed }
    else
      let r1 := if c.wasModified then { r with aiGeneratedData := c.compressed } else r
      if ¬ r.status = VStatus.completed then
        { r1 with status := VStatus.completed, error := none }
      else r1

/-- State of the `RateLimiter` of `rateLimiter.ts` (lines 162–169),
extended with ghost fields for the specification: `executing` lists the
ids of tasks whose function is currently running inside `execute`, and
`nextId` numbers arriving tasks in order. -/
structure RLState where
  maxConcurrent : Nat
  runningCount : Nat
  queue : List Nat
  executing : List Nat
  nextId : Nat
deriving DecidableEq

/-- Events of the limiter: a task arrives (`execute` calls `waitForSlot`),
or a running task settles — fulfilled or rejected — and the `finally`
block calls `releaseSlot`. -/
inductive RLEvent where
| submit : RLEvent
| finish : Nat → RLEvent
deriving DecidableEq

/-- One step of the limiter.  `submit` follows `waitForSlot` (lines
193–204): below the limit the task starts at once and `runningCount` is
incremented, otherwise its resolver joins the queue.  `finish t` follows
`releaseSlot` (lines 209–220), which runs in `execute`'s `finally` block
regardless of task success: the head waiter, if any, is resumed in its
place (count unchanged), else `runningCount` is decremented.  A `finish`
for a task that is not running is rejected (`none`). -/
def rlStep (s : RLState) : RLEvent → Option RLState
| .submit =>
  if s.runningCount < s.maxConcurrent then
    some { s with
      runningCount := s.runningCount + 1
      executing := s.executing ++ [s.nextId]
      nextId := s.nextId + 1 }
  else
    some { s with queue := s.queue ++ [s.nextId], nextId := s.nextId + 1 }
| .finish t =>
  if t ∈ s.executing then
    match s.queue with
    | w :: rest =>
      some { s with executing := s.executing.erase t ++ [w], queue := rest }
    | [] =>
      some { s with
        runningCount := s.runningCount - 1
        executing := s.executing.erase t }
  else none

/-- The limiter state before any event (`new RateLimiter(maxConcurrent)`). -/
def rlInit (maxConcurrent : Nat) : RLState :=
  { maxConcurrent := maxConcurrent
    runningCount := 0
    queue := []
    executing := []
    nextId := 0 }

/-- Run a sequence of limiter events from the initial state. -/
def runRL (maxConcurrent : Nat) (events : List RLEvent) : Option RLState :=
  List.foldl (fun os e => Option.bind os (fun s => rlStep s e)) (some (rlInit maxConcurrent)) events

/-- Strictly increasing list of arrival numbers. -/
def strictIncr : List Nat → Bool
| [] => true
| [_] => true
| a :: b :: r => a < b && strictIncr (b :: r)

/-- A validation error as produced by the validator (the fields the
callers read: `keyword`, `instancePath` and `params.missingProperty`). -/
structure VError where
  keyword : String
  instancePath : String
  missingProperty : Option String
deriving DecidableEq

/-- A schema carrying the `required` keyword — the fragment of the
JSON-Schema validator exercised by the claim. -/
structure ReqSchema where
  required : List String
deriving DecidableEq

/-- The compiled validator on the `required` fragment, with `allErrors`:
for object data, one `required` error per missing required member (the
keyword applies only to objects, so any other data passes). -/
def ajvValidate (data : JsValue) (s : ReqSchema) : List VError :=
  match data with
  | .obj kvs =>
    s.required.filterMap fun p =>
      if (List.map Prod.fst kvs).contains p then none
      else some { keyword := "required", instancePath := "", missingProperty := some p }
  | _ => []

/-- Function `validateData` of `valida.js` (lines 86–103): compile and run the
validator; when validation fails the (non-null, non-empty) `errors` array
is returned; when it succeeds the function falls through and returns
`undefined` — modelled as `none`. -/
def validateData (data : JsValue) (s : ReqSchema) : Option (List VError) :=
  let errs := ajvValidate data s
  if errs.isEmpty then none else some errs

/-- Conformance to the `required` fragment, written independently from the
spec's description ("a required field missing from the input yields a
non-empty error list; supplying the field yields success"): object data
must contain every required member; non-object data is not constrained. -/
def conformsRequired (data : JsValue) (s : ReqSchema) : Bool :=
  match data with
  | .obj kvs => s.required.all fun p => (List.map Prod.fst kvs).contains p
  | _ => true

/-- Whether a text parses (as a whole) to a JSON array. -/
def parsesAsJsonArray (s : String) : Bool :=
  match jsonParseJS s with
  | .ok (.arr _) => true
  | _ => false

/-- All contiguous substrings of `s` (as texts, deduplicated). -/
def allSubstrings (s : String) : List String :=
  (((List.range (s.length + 1)).map fun i =>
    (List.range (s.length + 1)).filterMap fun j =>
      if i < j then some (String.mk ((s.data.drop i).take (j - i))) else none).flatten).eraseDups

/-- The distinct substrings of `s` that parse as a JSON array. -/
def arraySubstrings (s : String) : List String :=
  (allSubstrings s).filter parsesAsJsonArray

/-- The invariant of the rate limiter, relative to the configured limit:
the ghost running set agrees with `runningCount`, which never exceeds the
limit; the queue lists waiters in strictly increasing arrival order, all of
them already arrived. -/
def rlInv (n : Nat) (s : RLState) : Prop :=
  s.maxConcurrent = n ∧
  s.executing.length = s.runningCount ∧
  s.runningCount ≤ n ∧
  strictIncr s.queue = true ∧
  (∀ q ∈ s.queue, q < s.nextId)

/-- Fixture: a record stored as `failed` by a schema-validation violation
(the orchestrator's error text, lines 376–392) whose payload is
nevertheless a well-formed JSON array. -/
def schemaViolationRecord : StoredRecord :=
  { id := "US-SHOES-color"
    property := "color"
    site := "US"
    productType := "SHOES"
    aiGeneratedData := "[\"red\"]"
    status := VStatus.failed
    error := some "AI数据验证失败: root: must be equal to one of the allowed values (keyword: enum)"
    timestamp := 0
    language_tag := none
    marketplace_id := none
    syncStatus := none
    syncTimestamp := none
    syncError := none }

/-- Fixture: a completed record for site `US`, product type `SHOES`,
property `color`. -/
def completedShoesRecord : StoredRecord :=
  { schemaViolationRecord with status := VStatus.completed, error := none }

/-- Fixture: save arguments whose composite key is `("a-b", "c", "d")`. -/
def saveArgsKeyA : SaveArgs :=
  { property := "d"
    site := "a-b"
    productType := "c"
    aiGeneratedData := "payload-A"
    status := VStatus.completed
    error := none
    language_tag := none
    marketplace_id := none }

/-- Fixture: save arguments whose composite key is `("a", "b-c", "d")` —
a different key whose dash-joined id collides with `saveArgsKeyA`'s. -/
def saveArgsKeyB : SaveArgs :=
  { property := "d"
    site := "a"
    productType := "b-c"
    aiGeneratedData := "payload-B"
    status := VStatus.completed
    error := none
    language_tag := none
    marketplace_id := none }

/-- The `isValidArray` field of `finishStage` is the classification it was
given. -/
theorem finishStage_isValidArray (js : String) (fd : JsValue) (hm wm va : Bool)
    (verr : Option String) (m : PMethod) :
    (finishStage js fd hm wm va verr m).isValidArray = va := by
  cases fd <;> rfl

/-- The `validationError` field of `finishStage` is the message it was
given. -/
theorem finishStage_validationError (js : String) (fd : JsValue) (hm wm va : Bool)
    (verr : Option String) (m : PMethod) :
    (finishStage js fd hm wm va verr m).validationError = verr := by
  cases fd <;> rfl

/-- Serializing a non-string final value always sets `wasModified`
(line 904 of the source). -/
theorem finishStage_arr_wasModified (js : String) (l : List JsValue) (hm wm va : Bool)
    (verr : Option String) (m : PMethod) :
    (finishStage js (JsValue.arr l) hm wm va verr m).wasModified = true := rfl

/-- A non-empty string literal stays non-empty under append. -/
theorem append_ne_empty_left (a b : String) (h : ¬ a.length = 0) : ¬ a ++ b = "" := by
  intro hc
  have hlen : (a ++ b).length = String.length "" := congrArg String.length hc
  have h0 : String.length "" = 0 := rfl
  rw [String.length_append, h0] at hlen
  omega

/-- The well-behavedness of one repair result: an invalid classification
carries a non-empty message, and a valid one was marked as modified. -/
def RepairOutcomeOK (r : RepairResult) : Prop :=
  (r.isValidArray = false → ∃ msg, r.validationError = some msg ∧ ¬ msg = "") ∧
  (r.isValidArray = true → r.wasModified = true)

/-- The continuation after a parse satisfies the outcome contract. -/
theorem afterParseCore_outcome (js : String) (v : JsValue) (wm : Bool) :
    RepairOutcomeOK (afterParseCore js v wm) := by
  cases v with
  | arr l =>
    refine ⟨fun h => ?_, fun _ => ?_⟩
    · rw [afterParseCore, finishStage_isValidArray] at h
      cases h
    · show (finishStage js (JsValue.arr (deepCleanL l).1) (deepCleanL l).2
        (wm || (deepCleanL l).2) true none PMethod.json_parsed).wasModified = true
      exact finishStage_arr_wasModified _ _ _ _ _ _ _
  | null =>
    refine ⟨fun _ => ⟨"Expected array but got object: object", rfl, by decide⟩, fun h => ?_⟩
    exact Bool.noConfusion h
  | bool b =>
    refine ⟨fun _ => ⟨"Expected array but got boolean: boolean", rfl, by decide⟩, fun h => ?_⟩
    exact Bool.noConfusion h
  | num n =>
    refine ⟨fun _ => ⟨"Expected array but got number: number", rfl, by decide⟩, fun h => ?_⟩
    exact Bool.noConfusion h
  | str s =>
    refine ⟨fun _ => ⟨"Expected array but got string: string", rfl, by decide⟩, fun h => ?_⟩
    exact Bool.noConfusion h
  | obj kvs =>
    refine ⟨fun _ => ⟨"Expected array but got object: object", rfl, by decide⟩, fun h => ?_⟩
    exact Bool.noConfusion h

/-- The after-parse stage satisfies the outcome contract. -/
theorem afterParseStage_outcome (js : String) (v0 : JsValue) (wm0 : Bool) :
    RepairOutcomeOK (afterParseStage js v0 wm0) :=
  afterParseCore_outcome js (secondParse v0 wm0).1 (secondParse v0 wm0).2

/-- The catch branch satisfies the outcome contract. -/
theorem catchStage_outcome (js s2 : String) (wm : Bool) (e : ParseErr) :
    RepairOutcomeOK (catchStage js s2 wm e) := by
  unfold catchStage
  split
  · refine ⟨fun _ => ⟨_, finishStage_validationError js _ _ _ _ _ _, ?_⟩, fun h => ?_⟩
    · exact append_ne_empty_left "JSON parse failed: " _ (by decide)
    · rw [finishStage_isValidArray] at h
      cases h
  · split
    · refine ⟨fun h => ?_, fun _ => ?_⟩
      · rw [finishStage_isValidArray] at h
        cases h
      · exact finishStage_arr_wasModified _ _ _ _ _ _ _
    · refine ⟨fun _ => ⟨_, finishStage_validationError js _ _ _ _ _ _, ?_⟩, fun h => ?_⟩
      · exact append_ne_empty_left "Repaired JSON is not an array: " _ (by decide)
      · rw [finishStage_isValidArray] at h
        cases h
    · refine ⟨fun _ => ⟨_, finishStage_validationError js _ _ _ _ _ _, ?_⟩, fun h => ?_⟩
      · exact append_ne_empty_left "JSON parse failed: " _ (by decide)
      · rw [finishStage_isValidArray] at h
        cases h

/-- Every dispatch lands in the after-parse or the catch shape. -/
theorem repairDispatch_shape (js s2 : String) (wm2 : Bool) :
    (∃ v wm, repairDispatch js s2 wm2 = afterParseStage js v wm) ∨
    (∃ e, repairDispatch js s2 wm2 = catchStage js s2 wm2 e) := by
  unfold repairDispatch
  split
  · exact Or.inl ⟨_, _, rfl⟩
  · split
    · split
      · exact Or.inr ⟨_, rfl⟩
      · split
        · split
          · exact Or.inl ⟨_, _, rfl⟩
          · split
            · split
              · exact Or.inl ⟨_, _, rfl⟩
              · exact Or.inr ⟨_, rfl⟩
            · exact Or.inr ⟨_, rfl⟩
        · split
          · split
            · exact Or.inl ⟨_, _, rfl⟩
            · exact Or.inr ⟨_, rfl⟩
          · exact Or.inr ⟨_, rfl⟩
    · exact Or.inr ⟨_, rfl⟩

/-- Every run of the repair engine lands in the empty, after-parse or
catch shape. -/
theorem ensureCompressedJson_shape (s : String) :
    ensureCompressedJson s = emptyRepairResult ∨
    (∃ v wm, ensureCompressedJson s = afterParseStage s v wm) ∨
    (∃ wm2 e, ensureCompressedJson s = catchStage s (preprocStr s) wm2 e) := by
  unfold ensureCompressedJson
  split
  · exact Or.inl rfl
  · rcases repairDispatch_shape s (preprocStr s)
      ((unescapeStage (jsTrimChars s.data)).2 ||
        decide (¬ (preprocChars s).length =
          (unescapeStage (jsTrimChars s.data)).1.length)) with ⟨v, wm, h⟩ | ⟨e, h⟩
    · exact Or.inr (Or.inl ⟨v, wm, h⟩)
    · exact Or.inr (Or.inr ⟨_, e, h⟩)

/-- Every result of the repair engine satisfies the outcome contract. -/
theorem ensureCompressedJson_outcome (s : String) :
    RepairOutcomeOK (ensureCompressedJson s) := by
  rcases ensureCompressedJson_shape s with h | ⟨v, wm, h⟩ | ⟨wm2, e, h⟩
  · rw [h]
    exact ⟨fun _ => ⟨"Empty data", rfl, by decide⟩, fun hc => Bool.noConfusion hc⟩
  · rw [h]
    exact afterParseStage_outcome s v wm
  · rw [h]
    exact catchStage_outcome s (preprocStr s) wm2 e

/-- C1 counterexample.  The claim "running ensureCompressedJson on the
compressed field of its own output yields a result with wasModified=false"
is false at the input `[1]`: the first run is a valid array whose
compressed output equals the input, yet the second run (like the first)
reports `wasModified = true`, because the serialization step sets the flag
unconditionally (lines 901–905).  Moreover the compressed string itself is
not always stable: for `[""""]` the first run yields the valid
array text `["\"\""]`, and the second run's unescape heuristic (escaped
quotes ≥ plain quotes, lines 636–649) mangles it into `[""""]`. -/
theorem c1_counterexample :
    (ensureCompressedJson "[1]").isValidArray = true ∧
    (ensureCompressedJson "[1]").compressed = "[1]" ∧
    (ensureCompressedJson ((ensureCompressedJson "[1]").compressed)).wasModified = true ∧
    (ensureCompressedJson "[\"\\u0022\\u0022\"]").isValidArray = true ∧
    (ensureCompressedJson "[\"\\u0022\\u0022\"]").compressed = "[\"\\\"\\\"\"]" ∧
    ¬ (ensureCompressedJson ((ensureCompressedJson "[\"\\u0022\\u0022\"]").compressed)).compressed
        = (ensureCompressedJson "[\"\\u0022\\u0022\"]").compressed :=
  ⟨rfl, rfl, rfl, rfl, rfl, by decide⟩

/-- C1 (amended).  The Data Repair Engine is not idempotent in the claimed
sense: whenever a run classifies its result as a valid array it reports
`wasModified = true` — the compact-serialization step sets the flag
unconditionally — so a re-run on the engine's own output never yields
`wasModified = false` when that output is still a valid array. -/
theorem c1_theorem (s : String) (h : (ensureCompressedJson s).isValidArray = true) :
    (ensureCompressedJson s).wasModified = true :=
  (ensureCompressedJson_outcome s).2 h

/-- C1 witness. -/
theorem c1_witness : (ensureCompressedJson "[1]").wasModified = true :=
  c1_theorem "[1]" rfl

/-- C2.  The Data Repair Engine is a total function (the embedding returns
a `RepairResult` for every input string, mirroring the source's catch-all
error handling), and whenever the final value is not a JSON array the
result carries `isValidArray = false` together with a non-empty descriptive
`validationError`, while `compressed` still holds the best-effort text. -/
theorem c2_theorem (s : String) (h : (ensureCompressedJson s).isValidArray = false) :
    ∃ msg, (ensureCompressedJson s).validationError = some msg ∧ ¬ msg = "" :=
  (ensureCompressedJson_outcome s).1 h

/-- C2 witness. -/
theorem c2_witness :
    ∃ msg, (ensureCompressedJson "abc").validationError = some msg ∧ ¬ msg = "" :=
  c2_theorem "abc" rfl

/-- C3 counterexample.  The input `abc[1]` contains exactly one substring
that parses as a JSON array (`[1]`), yet the engine reports
`isValidArray = false` and returns the text unchanged: the substring
extraction of step 3 is attempted only when the direct parse fails with the
trailing-content error, and junk before the array produces a different
parse error. -/
theorem c3_counterexample :
    (arraySubstrings "abc[1]").length = 1 ∧
    (ensureCompressedJson "abc[1]").isValidArray = false ∧
    (ensureCompressedJson "abc[1]").compressed = "abc[1]" :=
  ⟨rfl, rfl, rfl⟩

/-- A parse failure other than the trailing-content error goes straight to
the catch branch. -/
theorem repairDispatch_error_nonjunk (js s2 : String) (wm2 : Bool) (e : ParseErr)
    (hp : jsonParseJS s2 = Except.error e) (hjunk : ¬ e = ParseErr.trailingJunk) :
    repairDispatch js s2 wm2 = catchStage js s2 wm2 e := by
  unfold repairDispatch
  simp only [hp]
  rw [if_neg hjunk]

/-- When the catch-branch fixups change nothing, the result is the
unchanged text, classified invalid. -/
theorem catchStage_fixid (js s2 : String) (wm : Bool) (e : ParseErr)
    (hfix : catchFixup s2.data = s2.data) :
    (catchStage js s2 wm e).isValidArray = false ∧
    (catchStage js s2 wm e).compressed = s2 := by
  unfold catchStage
  rw [if_pos hfix]
  exact ⟨finishStage_isValidArray _ _ _ _ _ _ _, rfl⟩

/-- C3 (amended).  Extraction of an embedded array happens only when the
direct parse of the preprocessed text fails with the trailing-content
error ("Unexpected non-whitespace character after JSON"): for every
malformed input whose direct parse fails with any other error and whose
catch-branch fixups change nothing, the engine reports
`isValidArray = false` and returns the preprocessed text itself — even if
the input contains a valid JSON array substring. -/
theorem c3_theorem (s : String) (e : ParseErr)
    (hne : ¬ jsTrimStr s = "")
    (hp : jsonParseJS (preprocStr s) = Except.error e)
    (hjunk : ¬ e = ParseErr.trailingJunk)
    (hfix : catchFixup (preprocStr s).data = (preprocStr s).data) :
    (ensureCompressedJson s).isValidArray = false ∧
    (ensureCompressedJson s).compressed = preprocStr s := by
  unfold ensureCompressedJson
  rw [if_neg hne]
  rw [repairDispatch_error_nonjunk s (preprocStr s) _ e hp hjunk]
  exact catchStage_fixid s (preprocStr s) _ e hfix

/-- C3 witness. -/
theorem c3_witness :
    (ensureCompressedJson "abc[1]").isValidArray = false ∧
    (ensureCompressedJson "abc[1]").compressed = preprocStr "abc[1]" :=
  c3_theorem "abc[1]" ParseErr.unexpectedToken (by decide) rfl (by decide) rfl

/-- C8 counterexample.  The whitespace step rewrites the inside of string
literals: `["a  b"]` — an array whose only element is the string `a  b` —
comes back as `["a b"]`, the element now being `a b`. -/
theorem c8_counterexample :
    jsonParseJS "[\"a  b\"]" = Except.ok (JsValue.arr [JsValue.str "a  b"]) ∧
    (ensureCompressedJson "[\"a  b\"]").isValidArray = true ∧
    (ensureCompressedJson "[\"a  b\"]").compressed = "[\"a b\"]" ∧
    jsonParseJS (ensureCompressedJson "[\"a  b\"]").compressed =
      Except.ok (JsValue.arr [JsValue.str "a b"]) :=
  ⟨rfl, rfl, rfl, rfl⟩

/-- Collapsing whitespace is the identity on whitespace-free text. -/
theorem collapseWsAux_noWs (l : List Char) (h : ∀ c ∈ l, isJsWs c = false) :
    ∀ b, collapseWsAux b l = l := by
  induction l with
  | nil => intro b; rfl
  | cons c r ih =>
    intro b
    have hc : isJsWs c = false := h c (List.mem_cons_self c r)
    have hr : ∀ x ∈ r, isJsWs x = false := fun x hx => h x (List.mem_cons_of_mem c hx)
    simp [collapseWsAux, hc, ih hr]

/-- Deleting whitespace after a target is the identity on whitespace-free
text. -/
theorem delWsAfterAux_noWs (t : Char) (l : List Char) (h : ∀ c ∈ l, isJsWs c = false) :
    ∀ b, delWsAfterAux t b l = l := by
  induction l with
  | nil => intro b; rfl
  | cons c r ih =>
    intro b
    have hc : isJsWs c = false := h c (List.mem_cons_self c r)
    have hr : ∀ x ∈ r, isJsWs x = false := fun x hx => h x (List.mem_cons_of_mem c hx)
    by_cases ht : c = t
    · subst ht
      simp [delWsAfterAux, hc, ih hr]
    · simp [delWsAfterAux, hc, ht, ih hr]

/-- Stripping whitespace around a target is the identity on
whitespace-free text. -/
theorem stripAroundChar_noWs (t : Char) (l : List Char) (h : ∀ c ∈ l, isJsWs c = false) :
    stripAroundChar t l = l := by
  unfold stripAroundChar delWsBefore delWsAfter
  rw [delWsAfterAux_noWs t l h false]
  rw [delWsAfterAux_noWs t l.reverse (fun c hc => h c (List.mem_reverse.mp hc)) false]
  exact List.reverse_reverse l

/-- Dropping a whitespace run is the identity on whitespace-free text. -/
theorem dropWhile_noWs (l : List Char) (h : ∀ c ∈ l, isJsWs c = false) :
    l.dropWhile isJsWs = l := by
  cases l with
  | nil => rfl
  | cons c r => simp [List.dropWhile_cons, h c (List.mem_cons_self c r)]

/-- Trimming is the identity on whitespace-free text. -/
theorem jsTrimChars_noWs (l : List Char) (h : ∀ c ∈ l, isJsWs c = false) :
    jsTrimChars l = l := by
  unfold jsTrimChars
  rw [dropWhile_noWs l h]
  rw [dropWhile_noWs l.reverse (fun c hc => h c (List.mem_reverse.mp hc))]
  exact List.reverse_reverse l

/-- The whole normalization chain is the identity on whitespace-free text. -/
theorem wsNormChars_noWs (l : List Char) (h : ∀ c ∈ l, isJsWs c = false) :
    wsNormChars l = l := by
  unfold wsNormChars
  rw [show collapseWs l = l from collapseWsAux_noWs l h false]
  rw [stripAroundChar_noWs ':' l h, stripAroundChar_noWs ',' l h,
      stripAroundChar_noWs '[' l h, stripAroundChar_noWs ']' l h,
      stripAroundChar_noWs (Char.ofNat 123) l h, stripAroundChar_noWs (Char.ofNat 125) l h,
      jsTrimChars_noWs l h]

/-- C8 (amended).  The whitespace-normalization step (`wsNormStr`, the
embedding of lines 654–662) operates on the raw text without tracking
string literals, so it can alter the characters inside string values (see
the counterexample); the guarantee that actually holds is that it is the
identity exactly when no whitespace needs collapsing — in particular on
every input containing no whitespace characters at all. -/
theorem c8_theorem (s : String) (h : ∀ c ∈ s.data, isJsWs c = false) :
    wsNormStr s = s := by
  unfold wsNormStr
  rw [wsNormChars_noWs s.data h]

/-- C8 witness. -/
theorem c8_witness : wsNormStr "[1]" = "[1]" :=
  c8_theorem "[1]" (by decide)

mutual

/-- The cleaned value contains no `marketplace_id` member at any depth. -/
theorem deepCleanV_noMid : ∀ v : JsValue, hasMidV (deepCleanV v).1 = false
| JsValue.null => rfl
| JsValue.bool _ => rfl
| JsValue.num _ => rfl
| JsValue.str _ => rfl
| JsValue.arr l => deepCleanL_noMid l
| JsValue.obj kvs => deepCleanO_noMid kvs

/-- Item lists of the cleaned value contain no `marketplace_id`. -/
theorem deepCleanL_noMid : ∀ l : List JsValue, hasMidL (deepCleanL l).1 = false
| [] => rfl
| v :: r => by
  show (hasMidV (deepCleanV v).1 || hasMidL (deepCleanL r).1) = false
  rw [deepCleanV_noMid v, deepCleanL_noMid r]
  rfl

/-- Member lists of the cleaned value contain no `marketplace_id`. -/
theorem deepCleanO_noMid : ∀ kvs : List (String × JsValue), hasMidO (deepCleanO kvs).1 = false
| [] => rfl
| (k, v) :: r => by
  by_cases hk : k = "marketplace_id"
  · simp only [deepCleanO, if_pos hk]
    exact deepCleanO_noMid r
  · simp only [deepCleanO, if_neg hk]
    show hasMidO ((k, (deepCleanV v).1) :: (deepCleanO r).1) = false
    simp only [hasMidO, if_neg hk]
    rw [deepCleanV_noMid v, deepCleanO_noMid r]
    rfl

end

mutual

/-- The removal flag is exactly the presence of a `marketplace_id` member. -/
theorem deepCleanV_removed : ∀ v : JsValue, (deepCleanV v).2 = hasMidV v
| JsValue.null => rfl
| JsValue.bool _ => rfl
| JsValue.num _ => rfl
| JsValue.str _ => rfl
| JsValue.arr l => deepCleanL_removed l
| JsValue.obj kvs => deepCleanO_removed kvs

/-- The removal flag over item lists. -/
theorem deepCleanL_removed : ∀ l : List JsValue, (deepCleanL l).2 = hasMidL l
| [] => rfl
| v :: r => by
  show ((deepCleanV v).2 || (deepCleanL r).2) = (hasMidV v || hasMidL r)
  rw [deepCleanV_removed v, deepCleanL_removed r]

/-- The removal flag over member lists. -/
theorem deepCleanO_removed : ∀ kvs : List (String × JsValue), (deepCleanO kvs).2 = hasMidO kvs
| [] => rfl
| (k, v) :: r => by
  by_cases hk : k = "marketplace_id"
  · simp only [deepCleanO, hasMidO, if_pos hk]
  · simp only [deepCleanO, hasMidO, if_neg hk]
    show ((deepCleanV v).2 || (deepCleanO r).2) = (hasMidV v || hasMidO r)
    rw [deepCleanV_removed v, deepCleanO_removed r]

end

mutual

/-- Cleaning is the identity on values free of `marketplace_id`. -/
theorem deepCleanV_id : ∀ v : JsValue, hasMidV v = false → (deepCleanV v).1 = v
| JsValue.null, _ => rfl
| JsValue.bool _, _ => rfl
| JsValue.num _, _ => rfl
| JsValue.str _, _ => rfl
| JsValue.arr l, h => by
  show JsValue.arr (deepCleanL l).1 = JsValue.arr l
  rw [deepCleanL_id l h]
| JsValue.obj kvs, h => by
  show JsValue.obj (deepCleanO kvs).1 = JsValue.obj kvs
  rw [deepCleanO_id kvs h]

/-- Cleaning is the identity on item lists free of `marketplace_id`. -/
theorem deepCleanL_id : ∀ l : List JsValue, hasMidL l = false → (deepCleanL l).1 = l
| [], _ => rfl
| v :: r, h => by
  have hh : (hasMidV v || hasMidL r) = false := h
  have hv : hasMidV v = false := (Bool.or_eq_false_iff.mp hh).1
  have hr : hasMidL r = false := (Bool.or_eq_false_iff.mp hh).2
  show (deepCleanV v).1 :: (deepCleanL r).1 = v :: r
  rw [deepCleanV_id v hv, deepCleanL_id r hr]

/-- Cleaning is the identity on member lists free of `marketplace_id`. -/
theorem deepCleanO_id : ∀ kvs : List (String × JsValue), hasMidO kvs = false → (deepCleanO kvs).1 = kvs
| [], _ => rfl
| (k, v) :: r, h => by
  by_cases hk : k = "marketplace_id"
  · exact absurd h (by simp [hasMidO, hk])
  · have hh : (hasMidV v || hasMidO r) = false := by
      have hx := h
      simp only [hasMidO, if_neg hk] at hx
      exact hx
    simp only [deepCleanO, if_neg hk]
    show ((k, (deepCleanV v).1) :: (deepCleanO r).1) = (k, v) :: r
    rw [deepCleanV_id v (Bool.or_eq_false_iff.mp hh).1,
        deepCleanO_id r (Bool.or_eq_false_iff.mp hh).2]

end

/-- The cleaned object keeps exactly the members whose key is not
`marketplace_id`, each value recursively cleaned, in order. -/
theorem deepCleanO_filterMap : ∀ kvs : List (String × JsValue),
    (deepCleanO kvs).1 = kvs.filterMap fun kv =>
      if kv.1 = "marketplace_id" then none else some (kv.1, (deepCleanV kv.2).1)
| [] => rfl
| (k, v) :: r => by
  by_cases hk : k = "marketplace_id"
  · simp only [deepCleanO, List.filterMap_cons, if_pos hk]
    exact deepCleanO_filterMap r
  · simp only [deepCleanO, List.filterMap_cons, if_neg hk]
    rw [deepCleanO_filterMap r]

/-- C10.  `removeMarketplaceIdRecursively` removes every `marketplace_id`
member at every depth (no such member survives in the output), reports
`removed = true` exactly when one was present, returns the input unchanged
when none was present, and on objects keeps every other member — in order,
with its value recursively cleaned. -/
theorem c10_theorem (v : JsValue) :
    hasMidV (removeMarketplaceIdRecursively v).1 = false ∧
    (removeMarketplaceIdRecursively v).2 = hasMidV v ∧
    (hasMidV v = false → (removeMarketplaceIdRecursively v).1 = v) ∧
    (∀ kvs, v = JsValue.obj kvs →
      (removeMarketplaceIdRecursively v).1 =
        JsValue.obj (kvs.filterMap fun kv =>
          if kv.1 = "marketplace_id" then none
          else some (kv.1, (removeMarketplaceIdRecursively kv.2).1))) := by
  refine ⟨deepCleanV_noMid v, deepCleanV_removed v, deepCleanV_id v, ?_⟩
  intro kvs hv
  subst hv
  show JsValue.obj (deepCleanO kvs).1 = _
  rw [deepCleanO_filterMap kvs]
  rfl

/-- C10 witness. -/
theorem c10_witness :
    hasMidV (removeMarketplaceIdRecursively
      (JsValue.obj [("marketplace_id", JsValue.str "X"), ("a", JsValue.num "1")])).1 = false ∧
    (removeMarketplaceIdRecursively
      (JsValue.obj [("marketplace_id", JsValue.str "X"), ("a", JsValue.num "1")])).2 = true ∧
    (removeMarketplaceIdRecursively (JsValue.arr [JsValue.num "1"])).1 = JsValue.arr [JsValue.num "1"] := by
  refine ⟨(c10_theorem _).1, ?_, (c10_theorem (JsValue.arr [JsValue.num "1"])).2.2.1 rfl⟩
  rw [(c10_theorem _).2.1]
  rfl

/-- C4 counterexample.  A record stored as `failed` with a recorded
schema-validation error — not a formatting failure — is promoted to
`completed` (its error cleared) by the cleanup pass, because the pass only
re-runs the repair engine on the payload and never consults the recorded
failure reason. -/
theorem c4_counterexample :
    schemaViolationRecord.status = VStatus.failed ∧
    schemaViolationRecord.error =
      some "AI数据验证失败: root: must be equal to one of the allowed values (keyword: enum)" ∧
    (ensureCompressedJson schemaViolationRecord.aiGeneratedData).isValidArray = true ∧
    (cleanRecordStep schemaViolationRecord).status = VStatus.completed ∧
    (cleanRecordStep schemaViolationRecord).error = none :=
  ⟨rfl, rfl, rfl, rfl, rfl⟩

/-- C4 (amended).  For every stored record with a non-empty payload, the
cleanup pass promotes it to `completed` exactly when the repair engine
classifies the payload as a valid array — regardless of why the record had
failed — and (re-)marks it `failed` exactly when the engine reports the
payload invalid. -/
theorem c4_theorem (r : StoredRecord) (hne : ¬ r.aiGeneratedData = "") :
    ((ensureCompressedJson r.aiGeneratedData).isValidArray = true →
      (cleanRecordStep r).status = VStatus.completed) ∧
    ((ensureCompressedJson r.aiGeneratedData).isValidArray = false →
      (cleanRecordStep r).status = VStatus.failed) := by
  constructor
  · intro h
    by_cases hs : r.status = VStatus.completed <;>
      by_cases hw : (ensureCompressedJson r.aiGeneratedData).wasModified <;>
        simp [cleanRecordStep, hne, h, hs, hw]
  · intro h
    simp [cleanRecordStep, hne, h]

/-- C4 witness. -/
theorem c4_witness :
    (cleanRecordStep schemaViolationRecord).status = VStatus.completed :=
  (c4_theorem schemaViolationRecord (by decide)).1 rfl

/-- C5 counterexample.  With the store holding one completed record for
(site US, productType SHOES, property color), the discovered pair
(US, BOOTS) is skipped — the skip counter is incremented and nothing is
enqueued — although no completed record exists for the composite key
(US, BOOTS, color): the reuse check matches on (site, property) only. -/
theorem c5_counterexample :
    hasResultM [completedShoesRecord] "US" "BOOTS" "color" = false ∧
    processPropertyPlan [completedShoesRecord] "color" [("US", "BOOTS")] = ([], 1) :=
  ⟨rfl, rfl⟩

/-- C5 (amended).  During a run, a discovered (site, productType) pair of
an attribute is enqueued if and only if no completed record exists in the
store for the pair (site, property) — the productType is not consulted —
and each pair with such a record is skipped, incrementing the skip counter
once. -/
theorem c5_theorem (st : IdbStore) (property : String) (pairs : List (String × String)) :
    processPropertyPlan st property pairs =
      (pairs.filter fun p => !(hasResultBySitePropertyM st p.1 property),
       (pairs.filter fun p => hasResultBySitePropertyM st p.1 property).length) := by
  induction pairs with
  | nil => rfl
  | cons p rest ih =>
    obtain ⟨site, pt⟩ := p
    by_cases h : hasResultBySitePropertyM st site property
    · simp [processPropertyPlan, h, ih, List.filter_cons]
    · simp [processPropertyPlan, h, ih, List.filter_cons]

/-- Looking up an id after a replace-in-place put finds the new record. -/
theorem find_replace (st : IdbStore) (r : StoredRecord)
    (hmem : (List.any st fun x => x.id = r.id) = true) :
    List.find? (fun x => x.id = r.id) (List.map (fun x => if x.id = r.id then r else x) st) =
      some r := by
  induction st with
  | nil => simp at hmem
  | cons x rest ih =>
    by_cases hx : x.id = r.id
    · simp only [List.map_cons, if_pos hx]
      rw [List.find?_cons_of_pos _ (by simp)]
    · simp only [List.any_cons, Bool.or_eq_true] at hmem
      rcases hmem with hmem1 | hmem2
      · exact absurd (by simpa using hmem1) hx
      · simp only [List.map_cons, if_neg hx]
        rw [List.find?_cons_of_neg _ (by simpa using hx)]
        exact ih hmem2

/-- Looking up an id after an appending put finds the appended record. -/
theorem find_append_right (st : IdbStore) (r : StoredRecord)
    (hmem : (List.any st fun x => x.id = r.id) = false) :
    List.find? (fun x => x.id = r.id) (st ++ [r]) = some r := by
  induction st with
  | nil => simp [List.find?_cons_of_pos]
  | cons x rest ih =>
    simp only [List.any_cons, Bool.or_eq_false_iff] at hmem
    rw [List.cons_append, List.find?_cons_of_neg _ (by simpa using hmem.1)]
    exact ih hmem.2

/-- Putting a record and looking up the same id yields the new record. -/
theorem idbPut_find_self (st : IdbStore) (r : StoredRecord) :
    List.find? (fun x => x.id = r.id) (idbPut st r) = some r := by
  unfold idbPut
  split
  · next hmem => exact find_replace st r hmem
  · next hmem => exact find_append_right st r (by simpa using hmem)

/-- A put whose id is already present keeps the store size. -/
theorem idbPut_length_of_any (st : IdbStore) (r : StoredRecord)
    (hmem : (List.any st fun x => x.id = r.id) = true) :
    (idbPut st r).length = st.length := by
  unfold idbPut
  rw [if_pos hmem]
  exact List.length_map _ _

/-- Replacement leaves lookups of other ids unchanged. -/
theorem find_replace_other (st : IdbStore) (r : StoredRecord) (k : String) (hk : ¬ k = r.id) :
    List.find? (fun x => x.id = k) (List.map (fun x => if x.id = r.id then r else x) st) =
      List.find? (fun x => x.id = k) st := by
  induction st with
  | nil => rfl
  | cons x rest ih =>
    by_cases hx : x.id = r.id
    · have hrk : ¬ r.id = k := fun hc => hk (hc.symm)
      have hxk : ¬ x.id = k := by rw [hx]; exact hrk
      simp only [List.map_cons, if_pos hx]
      rw [List.find?_cons_of_neg _ (by simpa using hrk),
          List.find?_cons_of_neg _ (by simpa using hxk)]
      exact ih
    · simp only [List.map_cons, if_neg hx]
      by_cases hxk : x.id = k
      · rw [List.find?_cons_of_pos _ (by simpa using hxk),
            List.find?_cons_of_pos _ (by simpa using hxk)]
      · rw [List.find?_cons_of_neg _ (by simpa using hxk),
            List.find?_cons_of_neg _ (by simpa using hxk)]
        exact ih

/-- Appending a record leaves lookups of other ids unchanged. -/
theorem find_append_other (st : IdbStore) (r : StoredRecord) (k : String) (hk : ¬ k = r.id) :
    List.find? (fun x => x.id = k) (st ++ [r]) = List.find? (fun x => x.id = k) st := by
  induction st with
  | nil =>
    simp only [List.nil_append]
    rw [List.find?_cons_of_neg _ (by simpa using fun hc => hk hc.symm)]
  | cons x rest ih =>
    by_cases hxk : x.id = k
    · rw [List.cons_append, List.find?_cons_of_pos _ (by simpa using hxk),
          List.find?_cons_of_pos _ (by simpa using hxk)]
    · rw [List.cons_append, List.find?_cons_of_neg _ (by simpa using hxk),
          List.find?_cons_of_neg _ (by simpa using hxk)]
      exact ih

/-- Puts leave lookups of other ids unchanged. -/
theorem idbPut_find_other (st : IdbStore) (r : StoredRecord) (k : String) (hk : ¬ k = r.id) :
    List.find? (fun x => x.id = k) (idbPut st r) = List.find? (fun x => x.id = k) st := by
  unfold idbPut
  split
  · exact find_replace_other st r k hk
  · exact find_append_other st r k hk

/-- Replacement does not change the list of ids. -/
theorem ids_map_replace (st : IdbStore) (r : StoredRecord) :
    List.map StoredRecord.id (List.map (fun x => if x.id = r.id then r else x) st) =
      List.map StoredRecord.id st := by
  induction st with
  | nil => rfl
  | cons x rest ih =>
    by_cases hx : x.id = r.id
    · simp only [List.map_cons, if_pos hx, ih]
      rw [← hx]
    · simp only [List.map_cons, if_neg hx, ih]

/-- Puts preserve the distinctness of stored ids. -/
theorem idbPut_ids_nodup (st : IdbStore) (r : StoredRecord)
    (h : (List.map StoredRecord.id st).Nodup) :
    (List.map StoredRecord.id (idbPut st r)).Nodup := by
  unfold idbPut
  split
  · rw [ids_map_replace]
    exact h
  · next hmem =>
    have hnot : ∀ x ∈ st, ¬ x.id = r.id := by
      intro x hx hc
      exact hmem (List.any_eq_true.mpr ⟨x, hx, by simpa using hc⟩)
    rw [List.map_append]
    refine List.Nodup.append h (List.nodup_singleton _) ?_
    intro a ha hb
    simp only [List.map_cons, List.map_nil, List.mem_singleton] at hb
    obtain ⟨x, hx, hxa⟩ := List.mem_map.mp ha
    exact hnot x hx (by rw [hxa, hb])

/-- C6 counterexample.  The ids of `saveResult` are dash-joined, so the
distinct composite keys ("a-b", "c", "d") and ("a", "b-c", "d") collide:
saving the first and then the second leaves a single record in the store,
and `getResult` on the first key returns the second key's record (its
`site` is "a", not the requested "a-b") — the first key's record was
silently destroyed, so the store does not hold one live record per
composite key. -/
theorem c6_counterexample :
    ¬ saveArgsKeyA.site = saveArgsKeyB.site ∧
    generateId saveArgsKeyA.site saveArgsKeyA.productType saveArgsKeyA.property =
      generateId saveArgsKeyB.site saveArgsKeyB.productType saveArgsKeyB.property ∧
    (saveResultM (saveResultM [] saveArgsKeyA 1) saveArgsKeyB 2).length = 1 ∧
    getResultM (saveResultM (saveResultM [] saveArgsKeyA 1) saveArgsKeyB 2) "a-b" "c" "d" =
      some (mkStored saveArgsKeyB 2) :=
  ⟨by decide, rfl, rfl, rfl⟩

/-- C6 (amended).  The store keys records by the dash-joined id
`site-productType-property`: a save followed by a lookup of the same key
returns the just-written record; a second save whose key yields the same
id overwrites rather than appends (store size unchanged); saves leave
records under every other id untouched; and every save preserves
distinctness of ids — so the store holds at most one live record per id
(but distinct composite keys with colliding ids share that one slot, see
the counterexample). -/
theorem c6_theorem (st : IdbStore) (a : SaveArgs) (now : Nat) :
    getResultM (saveResultM st a now) a.site a.productType a.property = some (mkStored a now) ∧
    (∀ b : SaveArgs, ∀ n2 : Nat,
      generateId b.site b.productType b.property = generateId a.site a.productType a.property →
      (saveResultM (saveResultM st a now) b n2).length = (saveResultM st a now).length) ∧
    (∀ site productType property : String,
      ¬ generateId site productType property = generateId a.site a.productType a.property →
      getResultM (saveResultM st a now) site productType property =
        getResultM st site productType property) ∧
    ((List.map StoredRecord.id st).Nodup →
      (List.map StoredRecord.id (saveResultM st a now)).Nodup) := by
  refine ⟨?_, ?_, ?_, ?_⟩
  · exact idbPut_find_self st (mkStored a now)
  · intro b n2 heq
    apply idbPut_length_of_any
    apply List.any_eq_true.mpr
    refine ⟨mkStored a now, List.mem_of_find?_eq_some (idbPut_find_self st (mkStored a now)), ?_⟩
    have hid : (mkStored b n2).id = (mkStored a now).id := heq
    simp [hid]
  · intro site productType property hk
    exact idbPut_find_other st (mkStored a now) (generateId site productType property) hk
  · exact idbPut_ids_nodup st (mkStored a now)

/-- C6 witness. -/
theorem c6_witness :
    getResultM (saveResultM [] saveArgsKeyA 1) "a-b" "c" "d" = some (mkStored saveArgsKeyA 1) ∧
    (saveResultM (saveResultM [] saveArgsKeyA 1) saveArgsKeyA 2).length =
      (saveResultM [] saveArgsKeyA 1).length ∧
    (List.map StoredRecord.id (saveResultM [] saveArgsKeyA 1)).Nodup :=
  ⟨(c6_theorem [] saveArgsKeyA 1).1,
   (c6_theorem [] saveArgsKeyA 1).2.1 saveArgsKeyA 2 rfl,
   (c6_theorem [] saveArgsKeyA 1).2.2.2 List.nodup_nil⟩

/-- The tail of a strictly increasing list is strictly increasing. -/
theorem strictIncr_tail (a : Nat) (l : List Nat) (h : strictIncr (a :: l) = true) :
    strictIncr l = true := by
  cases l with
  | nil => rfl
  | cons b r =>
    have h1 : (decide (a < b) && strictIncr (b :: r)) = true := h
    rw [Bool.and_eq_true] at h1
    exact h1.2

/-- Appending a strict upper bound keeps a list strictly increasing. -/
theorem strictIncr_append (l : List Nat) (n : Nat) (h : strictIncr l = true)
    (hall : ∀ q ∈ l, q < n) : strictIncr (l ++ [n]) = true := by
  induction l with
  | nil => rfl
  | cons a r ih =>
    cases r with
    | nil =>
      show (decide (a < n) && strictIncr [n]) = true
      rw [Bool.and_eq_true]
      exact ⟨decide_eq_true (hall a (List.mem_cons_self a [])), rfl⟩
    | cons b r2 =>
      have h1 : (decide (a < b) && strictIncr (b :: r2)) = true := h
      rw [Bool.and_eq_true] at h1
      show (decide (a < b) && strictIncr ((b :: r2) ++ [n])) = true
      rw [Bool.and_eq_true]
      exact ⟨h1.1, ih h1.2 (fun q hq => hall q (List.mem_cons_of_mem a hq))⟩

/-- The head of a strictly increasing list is below every later entry. -/
theorem strictIncr_head_lt (w : Nat) (l : List Nat) (h : strictIncr (w :: l) = true) :
    ∀ q ∈ l, w < q := by
  induction l generalizing w with
  | nil => intro q hq; cases hq
  | cons b r ih =>
    intro q hq
    have h1 : (decide (w < b) && strictIncr (b :: r)) = true := h
    rw [Bool.and_eq_true, decide_eq_true_eq] at h1
    rcases List.mem_cons.mp hq with rfl | hq2
    · exact h1.1
    · exact Nat.lt_trans h1.1 (ih b h1.2 q hq2)

/-- One limiter step preserves the invariant. -/
theorem rlStep_inv (n : Nat) (s s' : RLState) (e : RLEvent)
    (hinv : rlInv n s) (h : rlStep s e = some s') : rlInv n s' := by
  obtain ⟨hmax, hlen, hcnt, hsort, hall⟩ := hinv
  cases e with
  | submit =>
    by_cases hlt : s.runningCount < s.maxConcurrent
    · simp only [rlStep, if_pos hlt, Option.some.injEq] at h
      subst h
      refine ⟨hmax, ?_, ?_, hsort, ?_⟩
      · show (s.executing ++ [s.nextId]).length = s.runningCount + 1
        simp only [List.length_append, List.length_cons, List.length_nil]
        omega
      · show s.runningCount + 1 ≤ n
        omega
      · intro q hq
        exact Nat.lt_succ_of_lt (hall q hq)
    · simp only [rlStep, if_neg hlt, Option.some.injEq] at h
      subst h
      refine ⟨hmax, hlen, hcnt, strictIncr_append _ _ hsort hall, ?_⟩
      intro q hq
      show q < s.nextId + 1
      have hq0 : q ∈ s.queue ++ [s.nextId] := hq
      rcases List.mem_append.mp hq0 with hq1 | hq2
      · exact Nat.lt_succ_of_lt (hall q hq1)
      · have : q = s.nextId := by simpa using hq2
        omega
  | finish t =>
    by_cases hmem : t ∈ s.executing
    · cases hq : s.queue with
      | cons w rest =>
        simp only [rlStep, if_pos hmem, hq, Option.some.injEq] at h
        subst h
        refine ⟨hmax, ?_, hcnt, ?_, ?_⟩
        · show (s.executing.erase t ++ [w]).length = s.runningCount
          simp only [List.length_append, List.length_cons, List.length_nil,
            List.length_erase_of_mem hmem]
          have hpos : 0 < s.executing.length := List.length_pos.mpr (List.ne_nil_of_mem hmem)
          omega
        · show strictIncr rest = true
          rw [hq] at hsort
          exact strictIncr_tail w rest hsort
        · intro q hq2
          show q < s.nextId
          exact hall q (by rw [hq]; exact List.mem_cons_of_mem w hq2)
      | nil =>
        simp only [rlStep, if_pos hmem, hq, Option.some.injEq] at h
        subst h
        refine ⟨hmax, ?_, ?_, ?_, ?_⟩
        · show (s.executing.erase t).length = s.runningCount - 1
          rw [List.length_erase_of_mem hmem, hlen]
        · show s.runningCount - 1 ≤ n
          omega
        · exact rfl
        · intro q hq2
          simp at hq2
    · simp only [rlStep, if_neg hmem] at h
      exact Option.noConfusion h

/-- Folding limiter events over `none` stays `none`. -/
theorem rlFold_none (events : List RLEvent) :
    List.foldl (fun os e => Option.bind os (fun s => rlStep s e)) none events = none := by
  induction events with
  | nil => rfl
  | cons e rest ih => simpa using ih

/-- Folding limiter events preserves the invariant. -/
theorem runRL_inv_aux (events : List RLEvent) (n : Nat) (s0 : RLState) (hinv : rlInv n s0)
    (s : RLState)
    (h : List.foldl (fun os e => Option.bind os (fun st => rlStep st e)) (some s0) events =
      some s) : rlInv n s := by
  induction events generalizing s0 with
  | nil =>
    simp only [List.foldl] at h
    cases h
    exact hinv
  | cons e rest ih =>
    simp only [List.foldl, Option.some_bind] at h
    cases hstep : rlStep s0 e with
    | none =>
      rw [hstep] at h
      rw [rlFold_none] at h
      cases h
    | some s1 =>
      rw [hstep] at h
      exact ih s1 (rlStep_inv n s0 s1 e hinv hstep) h

/-- C7.  In every state reachable by a sequence of limiter events from the
initial state, at most `maxConcurrent` tasks are executing; the waiting
queue lists arrival numbers in strictly increasing (FIFO) order; and
whenever a running task settles — success or failure alike, since the
release runs in `execute`'s `finally` — while waiters are queued, exactly
the head waiter (the earliest arrival among all queued) is moved to the
executing set, one-for-one. -/
theorem c7_theorem (n : Nat) (events : List RLEvent) (s : RLState)
    (h : runRL n events = some s) :
    s.executing.length ≤ n ∧
    strictIncr s.queue = true ∧
    (∀ t s', rlStep s (RLEvent.finish t) = some s' →
      ∀ w rest, s.queue = w :: rest →
        s'.queue = rest ∧ w ∈ s'.executing ∧ ∀ q ∈ rest, w < q) := by
  have hinit : rlInv n (rlInit n) := by
    refine ⟨rfl, rfl, Nat.zero_le n, rfl, ?_⟩
    intro q hq
    cases hq
  have hinv : rlInv n s := runRL_inv_aux events n (rlInit n) hinit s h
  obtain ⟨hmax, hlen, hcnt, hsort, hall⟩ := hinv
  refine ⟨by omega, hsort, ?_⟩
  intro t s' hstep w rest hq
  by_cases hmem : t ∈ s.executing
  · simp only [rlStep, if_pos hmem, hq, Option.some.injEq] at hstep
    subst hstep
    refine ⟨rfl, ?_, ?_⟩
    · exact List.mem_append_right _ (List.mem_cons_self w [])
    · rw [hq] at hsort
      exact strictIncr_head_lt w rest hsort
  · simp only [rlStep, if_neg hmem] at hstep
    exact Option.noConfusion hstep

/-- C7 witness. -/
theorem c7_witness :
    runRL 1 [RLEvent.submit, RLEvent.submit, RLEvent.finish 0] = some { maxConcurrent := 1, runningCount := 1, queue := [], executing := [1], nextId := 2 } ∧
    ({ maxConcurrent := 1, runningCount := 1, queue := [], executing := [1], nextId := 2 } : RLState).executing.length ≤ 1 ∧
    strictIncr ({ maxConcurrent := 1, runningCount := 1, queue := [], executing := [1], nextId := 2 } : RLState).queue = true :=
  ⟨rfl, (c7_theorem 1 [RLEvent.submit, RLEvent.submit, RLEvent.finish 0] _ rfl).1,
   (c7_theorem 1 [RLEvent.submit, RLEvent.submit, RLEvent.finish 0] _ rfl).2.1⟩

/-- C9 counterexample.  On conforming data — `{"color":"red"}` against
`{"required":["color"]}` — `validateData` returns `undefined` (modelled as
`none`), not the empty list the claim states: the source only returns
`validate.errors` inside the failure branch and otherwise falls off the
end of the function. -/
theorem c9_counterexample :
    validateData (JsValue.obj [("color", JsValue.str "red")]) { required := ["color"] } = none :=
  rfl

/-- C9 (amended).  `validateData` returns `undefined` (no list) when the
data conforms to the schema, and a non-empty error list when it does not;
on failure the list contains a `required`-keyword entry naming each
missing required property. -/
theorem c9_theorem (data : JsValue) (s : ReqSchema) :
    (conformsRequired data s = true → validateData data s = none) ∧
    (conformsRequired data s = false →
      ∃ errs, validateData data s = some errs ∧ ¬ errs = [] ∧
        ∀ p ∈ s.required, ∀ kvs, data = JsValue.obj kvs →
          (List.map Prod.fst kvs).contains p = false →
          ({ keyword := "required", instancePath := "", missingProperty := some p } : VError)
            ∈ errs) := by
  cases data with
  | obj kvs =>
    constructor
    · intro h
      have hall : ∀ p ∈ s.required, (List.map Prod.fst kvs).contains p = true := by
        have h2 : (s.required.all fun p => (List.map Prod.fst kvs).contains p) = true := h
        exact List.all_eq_true.mp h2
      have hnil : ajvValidate (JsValue.obj kvs) s = [] := by
        unfold ajvValidate
        rw [List.filterMap_eq_nil_iff]
        intro p hp
        rw [if_pos (hall p hp)]
      unfold validateData
      rw [hnil]
      rfl
    · intro h
      have hex : ∃ p ∈ s.required, (List.map Prod.fst kvs).contains p = false := by
        have h2 : (s.required.all fun p => (List.map Prod.fst kvs).contains p) = false := h
        by_contra hc
        push_neg at hc
        have hall : ∀ p ∈ s.required, (List.map Prod.fst kvs).contains p = true := by
          intro p hp
          cases hcp : (List.map Prod.fst kvs).contains p with
          | false => exact absurd hcp (hc p hp)
          | true => rfl
        rw [List.all_eq_true.mpr hall] at h2
        exact Bool.noConfusion h2
      obtain ⟨p0, hp0, hc0⟩ := hex
      have hmem0 : ({ keyword := "required", instancePath := "", missingProperty := some p0 } :
          VError) ∈ ajvValidate (JsValue.obj kvs) s := by
        unfold ajvValidate
        apply List.mem_filterMap.mpr
        exact ⟨p0, hp0, by rw [if_neg (by rw [hc0]; exact fun hc => Bool.noConfusion hc)]⟩
      have hne : ¬ ajvValidate (JsValue.obj kvs) s = [] := List.ne_nil_of_mem hmem0
      refine ⟨ajvValidate (JsValue.obj kvs) s, ?_, hne, ?_⟩
      · unfold validateData
        rw [if_neg (by simpa [List.isEmpty_iff] using hne)]
      · intro p hp kvs2 heq hcon
        cases heq
        unfold ajvValidate
        apply List.mem_filterMap.mpr
        exact ⟨p, hp, by rw [if_neg (by rw [hcon]; exact fun hc => Bool.noConfusion hc)]⟩
  | null =>
    exact ⟨fun _ => rfl, fun h => Bool.noConfusion h⟩
  | bool b =>
    exact ⟨fun _ => rfl, fun h => Bool.noConfusion h⟩
  | num nlex =>
    exact ⟨fun _ => rfl, fun h => Bool.noConfusion h⟩
  | str sv =>
    exact ⟨fun _ => rfl, fun h => Bool.noConfusion h⟩
  | arr l =>
    exact ⟨fun _ => rfl, fun h => Bool.noConfusion h⟩

/-- C9 witness. -/
theorem c9_witness :
    validateData (JsValue.obj [("color", JsValue.str "red")]) { required := ["color"] } = none ∧
    ∃ errs, validateData (JsValue.obj []) { required := ["color"] } = some errs ∧ ¬ errs = [] := by
  constructor
  · exact (c9_theorem (JsValue.obj [("color", JsValue.str "red")]) { required := ["color"] }).1 rfl
  · obtain ⟨errs, h1, h2, _⟩ :=
      (c9_theorem (JsValue.obj []) { required := ["color"] }).2 rfl
    exact ⟨errs, h1, h2⟩
